import Mathlib

/-!
Verification of the encrypted-QR-generation core of `src/main.py`
(class `QRCodeGeneratorApp`).

Modelling conventions:
* Python strings are lists of Unicode code points (`List Nat`); bytes-objects
  are lists of naturals below 256.
* The AES-256 block permutation lives in the external PyCryptodome library,
  so it is kept abstract: theorems quantify over a pair of functions
  `E D : List Nat → List Nat → List Nat` (key → block → block) together with
  hypotheses saying that on 16-byte blocks `D key` inverts `E key`, that
  `E key` is length-preserving and byte-valued.  Everything the repository
  composes around it (PKCS#7 padding, CBC chaining, base64, UTF-8, the
  envelope format) is modelled concretely.
* Filesystem and randomness effects are passed explicitly as environment
  records (file contents, write success, the stream of random draws).
-/

namespace QR

/-! ## base64 (Python `base64.b64encode` / the standard alphabet)

The standard base64 alphabet: 0–25 ↦ A–Z, 26–51 ↦ a–z, 52–61 ↦ 0–9,
62 ↦ `+` (43), 63 ↦ `/` (47); the pad character is `=` (61). -/

/-- Code point of the base64 alphabet character for a 6-bit value. -/
def b64CharCode (n : Nat) : Nat :=
  if n < 26 then 65 + n
  else if n < 52 then 97 + (n - 26)
  else if n < 62 then 48 + (n - 52)
  else if n = 62 then 43
  else 47

/-- Inverse of the base64 alphabet: code point back to the 6-bit value. -/
def b64DecCode (c : Nat) : Option Nat :=
  if 65 ≤ c ∧ c ≤ 90 then some (c - 65)
  else if 97 ≤ c ∧ c ≤ 122 then some (c - 97 + 26)
  else if 48 ≤ c ∧ c ≤ 57 then some (c - 48 + 52)
  else if c = 43 then some 62
  else if c = 47 then some 63
  else none

/-- Python `base64.b64encode`: 3 input bytes become 4 alphabet characters;
a 1- or 2-byte tail is padded with `=` (code point 61). -/
def b64Encode : List Nat → List Nat
  | [] => []
  | [a] => [b64CharCode (a / 4), b64CharCode (a % 4 * 16), 61, 61]
  | [a, b] => [b64CharCode (a / 4), b64CharCode (a % 4 * 16 + b / 16),
               b64CharCode (b % 16 * 4), 61]
  | a :: b :: c :: rest =>
      b64CharCode (a / 4) :: b64CharCode (a % 4 * 16 + b / 16) ::
      b64CharCode (b % 16 * 4 + c / 64) :: b64CharCode (c % 64) :: b64Encode rest

/-- Strict base64 decoding, the inverse of `b64Encode`: groups of 4
characters, `=`-padding only in a final group. -/
def b64Decode : List Nat → Option (List Nat)
  | [] => some []
  | c1 :: c2 :: c3 :: c4 :: rest =>
      match b64DecCode c1, b64DecCode c2 with
      | some n1, some n2 =>
        if c3 = 61 then
          if c4 = 61 ∧ rest = [] then some [n1 * 4 + n2 / 16] else none
        else
          match b64DecCode c3 with
          | some n3 =>
            if c4 = 61 then
              if rest = [] then some [n1 * 4 + n2 / 16, n2 % 16 * 16 + n3 / 4] else none
            else
              match b64DecCode c4, b64Decode rest with
              | some n4, some r =>
                  some ((n1 * 4 + n2 / 16) :: (n2 % 16 * 16 + n3 / 4) :: (n3 % 4 * 64 + n4) :: r)
              | _, _ => none
          | none => none
      | _, _ => none
  | _ => none

/-! ## Splitting on a separator (Python `str.split(sep)` for a 1-char sep) -/

/-- Python `s.split(sep)` for a single-character separator `sep`:
always returns one more field than there are separator occurrences. -/
def splitOnSep (sep : Nat) : List Nat → List (List Nat)
  | [] => [[]]
  | c :: rest =>
    let r := splitOnSep sep rest
    if c = sep then [] :: r
    else
      match r with
      | h :: t => (c :: h) :: t
      | [] => [[c]]

/-! ## UTF-8 (Python `str.encode('utf-8')` and its inverse) -/

/-- UTF-8 encoding of one Unicode scalar value. -/
def utf8EncodeChar (c : Nat) : List Nat :=
  if c < 128 then [c]
  else if c < 2048 then [192 + c / 64, 128 + c % 64]
  else if c < 65536 then [224 + c / 4096, 128 + c / 64 % 64, 128 + c % 64]
  else [240 + c / 262144, 128 + c / 4096 % 64, 128 + c / 64 % 64, 128 + c % 64]

/-- UTF-8 encoding of a string (list of code points). -/
def utf8Encode : List Nat → List Nat
  | [] => []
  | c :: cs => utf8EncodeChar c ++ utf8Encode cs

/-- Whether a byte is a UTF-8 continuation byte. -/
def utf8Cont (b : Nat) : Bool := 128 ≤ b ∧ b < 192

/-- Decode one UTF-8-encoded scalar value from the front of a byte string
(checks lead/continuation byte shapes; enough to make the decoder below a
two-sided inverse of `utf8Encode` on scalar values). -/
def utf8Step : List Nat → Option (Nat × List Nat)
  | [] => none
  | b :: rest =>
    if b < 128 then some (b, rest)
    else if b < 224 then
      match rest with
      | b2 :: rest2 =>
        if 192 ≤ b ∧ utf8Cont b2 then some ((b - 192) * 64 + (b2 - 128), rest2) else none
      | [] => none
    else if b < 240 then
      match rest with
      | b2 :: b3 :: rest3 =>
        if utf8Cont b2 ∧ utf8Cont b3 then
          some ((b - 224) * 4096 + (b2 - 128) * 64 + (b3 - 128), rest3)
        else none
      | _ => none
    else
      match rest with
      | b2 :: b3 :: b4 :: rest4 =>
        if b < 248 ∧ utf8Cont b2 ∧ utf8Cont b3 ∧ utf8Cont b4 then
          some ((b - 240) * 262144 + (b2 - 128) * 4096 + (b3 - 128) * 64 + (b4 - 128), rest4)
        else none
      | _ => none

/-- UTF-8 decoding, inverse of `utf8Encode`: decode scalar values one at a
time until the byte string is exhausted. -/
def utf8Decode (l : List Nat) : Option (List Nat) :=
  if hl : l = [] then some []
  else
    match hs : utf8Step l with
    | none => none
    | some (c, rest) => (utf8Decode rest).map (c :: ·)
termination_by l.length
decreasing_by
  cases l with
  | nil => simp [utf8Step] at hs
  | cons b bs =>
    simp only [utf8Step] at hs
    repeat' split at hs
    all_goals simp_all
    all_goals omega

/-! ## PKCS#7 padding (PyCryptodome `Crypto.Util.Padding.pad`/`unpad`,
block size 16 = `AES.block_size`) -/

/-- PKCS#7 pad to a multiple of 16 bytes: append k copies of k,
1 ≤ k ≤ 16. -/
def pkcs7Pad (bs : List Nat) : List Nat :=
  bs ++ List.replicate (16 - bs.length % 16) (16 - bs.length % 16)

/-- PKCS#7 unpad: the last byte k (1 ≤ k ≤ 16) gives the pad length; all k
trailing bytes must equal k. -/
def pkcs7Unpad (bs : List Nat) : Option (List Nat) :=
  match bs.getLast? with
  | none => none
  | some k =>
    if 1 ≤ k ∧ k ≤ 16 ∧ k ≤ bs.length ∧ (bs.drop (bs.length - k)).all (· = k) then
      some (bs.take (bs.length - k))
    else none

/-! ## CBC mode (PyCryptodome `AES.new(key, AES.MODE_CBC)` chaining) -/

/-- Bytewise xor of two equal-length byte strings. -/
def xorBytes (a b : List Nat) : List Nat := List.zipWith Nat.xor a b

/-- Split a byte string into 16-byte blocks (last block shorter if the
length is not a multiple of 16; never the case after padding). -/
def chunks (bs : List Nat) : List (List Nat) :=
  if h : bs = [] then [] else bs.take 16 :: chunks (bs.drop 16)
termination_by bs.length
decreasing_by
  simp only [List.length_drop]
  have := List.length_pos.mpr h
  omega

/-- CBC encryption over a block list: each plaintext block is xored with the
previous ciphertext block (initially the IV) before the block permutation. -/
def cbcEncBlocks (E1 : List Nat → List Nat) (prev : List Nat) :
    List (List Nat) → List (List Nat)
  | [] => []
  | blk :: rest =>
    let c := E1 (xorBytes blk prev)
    c :: cbcEncBlocks E1 c rest

/-- CBC decryption over a block list, inverse chaining of `cbcEncBlocks`. -/
def cbcDecBlocks (D1 : List Nat → List Nat) (prev : List Nat) :
    List (List Nat) → List (List Nat)
  | [] => []
  | c :: rest => xorBytes (D1 c) prev :: cbcDecBlocks D1 c rest

/-- CBC encryption of a (padded) byte string under block function `E1` and
initialization vector `iv`. -/
def cbcEncrypt (E1 : List Nat → List Nat) (iv bs : List Nat) : List Nat :=
  (cbcEncBlocks E1 iv (chunks bs)).flatten

/-- CBC decryption of a byte string, inverse of `cbcEncrypt`. -/
def cbcDecrypt (D1 : List Nat → List Nat) (iv bs : List Nat) : List Nat :=
  (cbcDecBlocks D1 iv (chunks bs)).flatten

/-! ## The encryption envelope (`QRCodeGeneratorApp.encrypt_data`,
src/main.py lines 497–503) -/

/-- Model of `encrypt_data`: UTF-8 encode the plaintext, PKCS#7 pad to the
AES block size, CBC-encrypt under the abstract block cipher `E key` and the
freshly drawn 16-byte `iv`, and return `b64(iv) ++ ":" ++ b64(ciphertext)`
(`:` is code point 58). -/
def encrypt_data (E : List Nat → List Nat → List Nat) (key iv data : List Nat) :
    List Nat :=
  b64Encode iv ++ 58 :: b64Encode (cbcEncrypt (E key) iv (pkcs7Pad (utf8Encode data)))

/-- Modelled from the spec: the inverse decrypt operation, which the spec
requires only "for testability" and which is absent from src/ — parse the two
base64 fields of the envelope, CBC-decrypt under the same key and the
envelope's IV, unpad, then UTF-8 decode. -/
def decrypt_data (D : List Nat → List Nat → List Nat) (key envelope : List Nat) :
    Option (List Nat) :=
  match splitOnSep 58 envelope with
  | [ivField, ctField] =>
    match b64Decode ivField, b64Decode ctField with
    | some iv, some ct =>
      match pkcs7Unpad (cbcDecrypt (D key) iv ct) with
      | some padded => utf8Decode padded
      | none => none
    | _, _ => none
  | _ => none

/-! ## Python string helpers used by the validators -/

/-- Code points stripped by Python `str.strip()` (the Unicode whitespace set
of CPython's `Py_UNICODE_ISSPACE`). -/
def isPySpace (c : Nat) : Bool :=
  c ∈ [9, 10, 11, 12, 13, 28, 29, 30, 31, 32, 133, 160, 5760,
       8192, 8193, 8194, 8195, 8196, 8197, 8198, 8199, 8200, 8201, 8202,
       8232, 8233, 8239, 8287, 12288]

/-- Python `str.strip()`: drop leading and trailing whitespace. -/
def pyStrip (s : List Nat) : List Nat :=
  ((s.dropWhile isPySpace).reverse.dropWhile isPySpace).reverse

/-- An ASCII decimal digit. Python's `\d` also matches the non-ASCII Unicode
decimal digits; theorems about the `\d`-based validator therefore restrict
the quantified string to ASCII code points, where this model is exact. -/
def isAsciiDigit (c : Nat) : Bool := 48 ≤ c ∧ c ≤ 57

/-- Drop a single trailing newline (code point 10) if present. In Python,
`$` in a pattern matches at the end of the string or just before a newline
that ends the string, so `re.match(r'^P$', s)` succeeds exactly when `P`
fully matches `s` with at most one trailing newline removed. -/
def stripOneTrailingLF (s : List Nat) : List Nat :=
  if s.getLast? = some 10 then s.dropLast else s

/-- Python `re.match(r'^\d+$', s) is not None`: one or more digits, with one
trailing newline tolerated by `$`. -/
def pyMatchDigits (s : List Nat) : Bool :=
  let t := stripOneTrailingLF s
  !t.isEmpty && t.all isAsciiDigit

/-! ## Input validation (`QRCodeGeneratorApp.validate_inputs`,
src/main.py lines 119–130) -/

/-- The three validation failures, in the order the code checks them. -/
inductive VErr where
  | invalidName
  | invalidId
  | invalidDepartment
deriving DecidableEq

/-- Model of `validate_inputs`: `none` means valid; otherwise the first
failing rule. Mirrors the source's three `if` statements, including the
redundant emptiness tests (`not value or …`). -/
def validate_inputs (name employeeId department : List Nat) : Option VErr :=
  if name.isEmpty || (pyStrip name).length < 2 then some .invalidName
  else if employeeId.isEmpty || !pyMatchDigits employeeId then some .invalidId
  else if department.isEmpty || (pyStrip department).length < 2 then some .invalidDepartment
  else none

/-! ## Serialization (`QRCodeGeneratorApp.collect_employee_data`,
src/main.py lines 542–547) -/

/-- Code points of the label `"الاسم: "` (name line). -/
def nameLabel : List Nat := [1575, 1604, 1575, 1587, 1605, 58, 32]

/-- Code points of the label `"الرقم الوظيفي: "` (employee-id line). -/
def idLabel : List Nat :=
  [1575, 1604, 1585, 1602, 1605, 32, 1575, 1604, 1608, 1592, 1610, 1601, 1610, 58, 32]

/-- Code points of the label `"القسم: "` (department line). -/
def deptLabel : List Nat := [1575, 1604, 1602, 1587, 1605, 58, 32]

/-- Code points of the label `"معلومات إضافية: "` (optional notes line). -/
def notesLabel : List Nat :=
  [1605, 1593, 1604, 1608, 1605, 1575, 1578, 32, 1573, 1590, 1575, 1601, 1610, 1577, 58, 32]

/-- Model of `collect_employee_data`: newline-joined labeled lines for name,
id and department, plus a notes line appended only when notes is non-empty
(`if self.additional_info.value`). -/
def collect_employee_data (name employeeId department notes : List Nat) : List Nat :=
  nameLabel ++ name ++ 10 :: (idLabel ++ employeeId ++ 10 :: (deptLabel ++ department ++
    (if notes.isEmpty then [] else 10 :: (notesLabel ++ notes))))

/-- Strip a known label from the front of a line, failing if the line does
not carry it. -/
def stripLabel (lab line : List Nat) : Option (List Nat) :=
  if line.take lab.length = lab then some (line.drop lab.length) else none

/-- Modelled from the spec: parsing back the three fixed labeled lines of a
serialized record with empty notes (the consumer-side parse the spec demands
round-trips; no such parser exists in src/). -/
def parseEmployee (s : List Nat) : Option (List Nat × List Nat × List Nat) :=
  match splitOnSep 10 s with
  | [l1, l2, l3] =>
    match stripLabel nameLabel l1, stripLabel idLabel l2, stripLabel deptLabel l3 with
    | some n, some i, some d => some (n, i, d)
    | _, _, _ => none
  | _ => none

/-- Model of the control flow of `generate_qr_code` (src/main.py lines
505–541) around validation: on a validation failure the handler shows the
error and returns, so no downstream stage (serialize, encrypt, encode,
write) runs; otherwise the serialized payload is produced and handed to the
encrypt/encode stages. The pair is (error shown, payload passed downstream). -/
def generate_qr_code (name employeeId department notes : List Nat) :
    Option VErr × Option (List Nat) :=
  match validate_inputs name employeeId department with
  | some e => (some e, none)
  | none => (none, some (collect_employee_data name employeeId department notes))

/-! ## Color validation (`QRCodeGeneratorApp.validate_color`,
src/main.py lines 1113–1115) -/

/-- A hexadecimal digit as accepted by the pattern `[0-9a-fA-F]`. -/
def isHexDigit (c : Nat) : Bool :=
  (48 ≤ c ∧ c ≤ 57) || (97 ≤ c ∧ c ≤ 102) || (65 ≤ c ∧ c ≤ 70)

/-- Model of `validate_color`:
`re.match(r'^#(?:[0-9a-fA-F]{3}){1,2}$', color) is not None`, i.e. `#`
followed by exactly 3 or 6 hex digits — with one trailing newline tolerated,
because Python's `$` also matches just before a newline that ends the
string. -/
def validate_color (s : List Nat) : Bool :=
  match s with
  | 35 :: rest =>
    let core := stripOneTrailingLF rest
    (core.length = 3 || core.length = 6) && core.all isHexDigit
  | _ => false

/-- The hex-color shape in the words of the spec and claims: `#` followed by
exactly 3 or exactly 6 hex digits, nothing else. Stated separately from
`validate_color` so the two can be compared. -/
def hexClaimShape (s : List Nat) : Bool :=
  match s with
  | 35 :: rest => (rest.length = 3 || rest.length = 6) && rest.all isHexDigit
  | _ => false

/-- The employee-id shape in the words of the claims: one or more digits
with no leading or trailing whitespace tolerated. Stated separately from
`pyMatchDigits` so the two can be compared. -/
def claimIdOk (s : List Nat) : Bool := !s.isEmpty && s.all isAsciiDigit

/-! ## The external image library's color parsing
(`qrcode.make_image` hands `fill_color`/`back_color` to Pillow) -/

/-- ASCII lowercasing of one code point (Python `str.lower()` restricted to
ASCII; the color strings compared here are ASCII). -/
def asciiLower (c : Nat) : Nat := if 65 ≤ c ∧ c ≤ 90 then c + 32 else c

/-- A lowercase hexadecimal digit (`[0-9a-f]`). -/
def isLowerHexDigit (c : Nat) : Bool := (48 ≤ c ∧ c ≤ 57) || (97 ≤ c ∧ c ≤ 102)

/-- The hexadecimal branch of the external Pillow `ImageColor.getrgb`
grammar (documented as `#rgb`, `#rgba`, `#rrggbb`, `#rrggbbaa`, checked
after lowercasing): `#` followed by exactly 3, 4, 6 or 8 hex digits. -/
def pilHexOk (s : List Nat) : Bool :=
  match s with
  | 35 :: rest =>
    (rest.length = 3 || rest.length = 4 || rest.length = 6 || rest.length = 8) &&
      rest.all isLowerHexDigit
  | _ => false

/-- The external Pillow color parser: the hexadecimal branch modelled
exactly, with the remaining branches (the named-color table, `rgb(…)`,
`hsl(…)`, …) abstracted as the predicate `extra`. Both run on the lowercased
string, as `getrgb` lowercases first. -/
def mkPilParse (extra : List Nat → Bool) (s : List Nat) : Bool :=
  pilHexOk (s.map asciiLower) || extra (s.map asciiLower)

/-! ## Settings as a JSON-object dictionary (`setup_app_settings`,
`load_settings`, src/main.py lines 74–96) -/

/-- A JSON value as far as the settings file uses them: strings and
booleans. -/
inductive JVal where
  | s (v : List Nat)
  | b (v : Bool)
deriving DecidableEq

/-- A Python dict as an association list in insertion order. -/
abbrev Dict := List (List Nat × JVal)

/-- Python `d[k]` as an `Option` (`d.get(k)` with no default). -/
def dictGet (d : Dict) (k : List Nat) : Option JVal :=
  match d with
  | [] => none
  | (a, v) :: rest => if a = k then some v else dictGet rest k

/-- Python `d[k] = v`: replace the value in place if the key exists
(keys of a parsed JSON object are unique), else append at the end. -/
def dictSet (d : Dict) (k : List Nat) (v : JVal) : Dict :=
  match d with
  | [] => [(k, v)]
  | (a, w) :: rest => if a = k then (k, v) :: rest else (a, w) :: dictSet rest k v

/-- Python `d.update(other)`: set every key of `other` in `d`, in order. -/
def dictUpdate (d other : Dict) : Dict :=
  other.foldl (fun acc p => dictSet acc p.1 p.2) d

/-- Code points of the settings key `"save_path"`. -/
def savePathKey : List Nat := [115, 97, 118, 101, 95, 112, 97, 116, 104]

/-- Code points of the settings key `"auto_save"`. -/
def autoSaveKey : List Nat := [97, 117, 116, 111, 95, 115, 97, 118, 101]

/-- Code points of the settings key `"image_quality"`. -/
def imageQualityKey : List Nat :=
  [105, 109, 97, 103, 101, 95, 113, 117, 97, 108, 105, 116, 121]

/-- Code points of the settings key `"qr_size"`. -/
def qrSizeKey : List Nat := [113, 114, 95, 115, 105, 122, 101]

/-- Code points of the settings key `"qr_color"`. -/
def qrColorKey : List Nat := [113, 114, 95, 99, 111, 108, 111, 114]

/-- Code points of the settings key `"qr_bg_color"`. -/
def qrBgColorKey : List Nat := [113, 114, 95, 98, 103, 95, 99, 111, 108, 111, 114]

/-- Code points of the settings key `"language"`. -/
def languageKey : List Nat := [108, 97, 110, 103, 117, 97, 103, 101]

/-- Code points of the default quality label `"عالية"` (high). -/
def qualityHigh : List Nat := [1593, 1575, 1604, 1610, 1577]

/-- Code points of the default size label `"متوسط"` (medium). -/
def sizeMedium : List Nat := [1605, 1578, 1608, 1587, 1591]

/-- Code points of the default color `"#000000"`. -/
def blackHex : List Nat := [35, 48, 48, 48, 48, 48, 48]

/-- Code points of the default background color `"#FFFFFF"`. -/
def whiteHex : List Nat := [35, 70, 70, 70, 70, 70, 70]

/-- Code points of the default language tag `"ar"`. -/
def langAr : List Nat := [97, 114]

/-- Model of `setup_app_settings`: the hard-coded defaults dictionary. The
default save path (`os.path.join(os.path.expanduser("~"), "QR-pass")`)
depends on the environment and is passed in. -/
def setup_app_settings (defaultSavePath : List Nat) : Dict :=
  [(savePathKey, .s defaultSavePath), (autoSaveKey, .b false),
   (imageQualityKey, .s qualityHigh), (qrSizeKey, .s sizeMedium),
   (qrColorKey, .s blackHex), (qrBgColorKey, .s whiteHex),
   (languageKey, .s langAr)]

/-- Model of `load_settings`. The filesystem outcome is passed in:
`none` = no settings file (`os.path.exists` false), `some none` = the
read/parse raised one of the caught exceptions, `some (some loaded)` = the
parsed JSON object. The directory-writability probe `validate_path` is
passed as `probe` for string paths. The code merges the whole loaded dict
over the defaults only when it contains a `save_path` key whose value
passes the probe. A non-string `save_path` makes `os.path.isabs` raise
`TypeError` *inside* `validate_path`, whose `except Exception` handler
catches it and returns False — so the probe fails and the defaults are
kept, without any exception escaping. -/
def load_settings (defaults : Dict) (fileState : Option (Option Dict))
    (probe : List Nat → Bool) : Dict :=
  match fileState with
  | none => defaults
  | some none => defaults
  | some (some loaded) =>
    match dictGet loaded savePathKey with
    | none => defaults
    | some (.s p) => if probe p then dictUpdate defaults loaded else defaults
    | some (.b _) => defaults

/-! ## Saving settings (`QRCodeGeneratorApp.save_settings_changes`,
src/main.py lines 1052–1082, and `save_settings`, lines 98–104) -/

/-- The in-memory application settings as a record (all seven fields the
settings dialog writes). -/
structure AppSettings where
  savePath : List Nat
  autoSave : Bool
  imageQuality : List Nat
  qrSize : List Nat
  qrColor : List Nat
  qrBgColor : List Nat
  language : List Nat
deriving DecidableEq

/-- The raw values read from the settings form controls. -/
structure SettingsForm where
  savePath : List Nat
  autoSave : Bool
  imageQuality : List Nat
  qrSize : List Nat
  qrColor : List Nat
  qrBgColor : List Nat
  language : List Nat
deriving DecidableEq

/-- The message `save_settings_changes` surfaces. -/
inductive SaveMsg where
  | pathInvalid
  | colorInvalid
  | bgColorInvalid
  | saved
deriving DecidableEq

/-- Observable outcome of a settings save: the in-memory settings
afterwards, what reached the settings file (`none` = nothing written), the
message shown, and whether a write error was only printed to the console. -/
structure SaveOutcome where
  settings : AppSettings
  written : Option AppSettings
  msg : SaveMsg
  writeErrorPrinted : Bool
deriving DecidableEq

/-- The settings record built from the form values. -/
def formSettings (f : SettingsForm) : AppSettings :=
  ⟨f.savePath, f.autoSave, f.imageQuality, f.qrSize, f.qrColor, f.qrBgColor, f.language⟩

/-- Model of `save_settings_changes`: validate the save path with the
writability probe, then both colors with `validate_color`, returning early
(no mutation, an error message) on the first failure; otherwise update the
in-memory settings, then call `save_settings`, which swallows a write
failure (prints it) — and report success either way. -/
def save_settings_changes (prev : AppSettings) (f : SettingsForm)
    (probe : List Nat → Bool) (writeOk : Bool) : SaveOutcome :=
  if !probe f.savePath then ⟨prev, none, .pathInvalid, false⟩
  else if !validate_color f.qrColor then ⟨prev, none, .colorInvalid, false⟩
  else if !validate_color f.qrBgColor then ⟨prev, none, .bgColorInvalid, false⟩
  else
    let s := formSettings f
    ⟨s, if writeOk then some s else none, .saved, !writeOk⟩

/-! ## The encryption key lifecycle (`QRCodeGeneratorApp.load_or_generate_key`,
src/main.py lines 60–72) -/

/-- The environment `load_or_generate_key` runs in: whether the key file
exists, what reading it yields (`none` = the read raises), whether writing
succeeds, and the two 32-byte draws `get_random_bytes(32)` would return
(the second is only consumed in the `except` handler). -/
structure KeyEnv where
  fileExists : Bool
  readResult : Option (List Nat)
  writeOk : Bool
  rand1 : List Nat
  rand2 : List Nat

/-- Observable outcome of `load_or_generate_key`: the in-memory key, the
bytes a write to the key file was attempted with (`none` = no write
attempted), and whether an error was printed. -/
structure KeyOutcome where
  key : List Nat
  persistAttempt : Option (List Nat)
  errorPrinted : Bool
deriving DecidableEq

/-- Model of `load_or_generate_key`: inside `try`, if the key file exists
its whole content is read and taken verbatim as the key; otherwise a fresh
32-byte key is generated and written. Any exception lands in `except`,
which prints the error and sets the key to a *new* `get_random_bytes(32)`
draw — without re-attempting the write. -/
def load_or_generate_key (env : KeyEnv) : KeyOutcome :=
  if env.fileExists then
    match env.readResult with
    | some bs => ⟨bs, none, false⟩
    | none => ⟨env.rand2, none, true⟩
  else if env.writeOk then ⟨env.rand1, some env.rand1, false⟩
  else ⟨env.rand2, some env.rand1, true⟩

/-! ## QR image creation (`QRCodeGeneratorApp.create_qr_code_image`,
src/main.py lines 559–579) -/

/-- The rendered QR artifact as far as colors are observable: the payload
text and the two color strings actually used. -/
structure QRImage where
  payload : List Nat
  fill : List Nat
  back : List Nat
deriving DecidableEq

/-- Model of `create_qr_code_image`: the fill and back colors are taken from
the settings dict with `dict.get` (whose default applies only when the key
is absent) and handed to the external image library unvalidated; the call
fails (raises, caught by the enclosing handler) exactly when the library's
color parser rejects one of them. What the library does with a non-string
color value is version-dependent, so that branch is a conservative
modelling choice; every theorem about this function below instantiates
string-valued colors only and rests on nothing in that branch. -/
def create_qr_code_image (pilParse : List Nat → Bool) (settings : Dict)
    (data : List Nat) : Option QRImage :=
  match (match dictGet settings qrColorKey with
         | some (.s v) => some v
         | some (.b _) => none
         | none => some blackHex),
        (match dictGet settings qrBgColorKey with
         | some (.s v) => some v
         | some (.b _) => none
         | none => some whiteHex) with
  | some fill, some back =>
    if pilParse fill && pilParse back then some ⟨data, fill, back⟩ else none
  | _, _ => none

/-! ## The claims as stated (for the corrected claims, the statement to be
refuted is recorded as a definition) -/

/-- Claim C3 as stated: the three rules apply in order, the id rule being
"digits only, with no leading or trailing whitespace tolerated"
(`claimIdOk`), and on failure no downstream stage executes. -/
def c3ClaimStatement : Prop :=
  ∀ name employeeId department notes : List Nat,
    validate_inputs name employeeId department =
      (if (pyStrip name).length < 2 then some .invalidName
       else if !claimIdOk employeeId then some .invalidId
       else if (pyStrip department).length < 2 then some .invalidDepartment
       else none)
    ∧ (∀ e, validate_inputs name employeeId department = some e →
        generate_qr_code name employeeId department notes = (some e, none))

/-- Claim C4 as stated: every valid record with empty notes serializes to
exactly three labeled lines, and parsing them back recovers the fields. -/
def c4ClaimStatement : Prop :=
  ∀ name employeeId department : List Nat,
    validate_inputs name employeeId department = none →
    (splitOnSep 10 (collect_employee_data name employeeId department [])).length = 3
    ∧ parseEmployee (collect_employee_data name employeeId department []) =
        some (name, employeeId, department)

/-- Claim C5 as stated: whenever the key file is missing or reading it
fails, fresh random bytes are generated, their persistence is attempted,
and those same bytes are the in-memory key whether or not the write
succeeded. -/
def c5ClaimStatement : Prop :=
  ∀ env : KeyEnv, env.rand1.length = 32 → env.rand2.length = 32 →
    (env.fileExists = false ∨ env.readResult = none) →
    (load_or_generate_key env).persistAttempt = some (load_or_generate_key env).key

/-- Claim C6 as stated: the in-memory key is exactly 32 bytes in every
outcome (in particular, exactly 32 bytes are read from an existing key
file). -/
def c6ClaimStatement : Prop :=
  ∀ env : KeyEnv, env.rand1.length = 32 → env.rand2.length = 32 →
    (load_or_generate_key env).key.length = 32

/-- Claim C7 as stated: on any validation failure or on a failure of the
persisting write, the save returns a failure, nothing reaches the settings
file, and the prior in-memory settings are unchanged. -/
def c7ClaimStatement : Prop :=
  ∀ (prev : AppSettings) (f : SettingsForm) (probe : List Nat → Bool) (writeOk : Bool),
    (probe f.savePath = false ∨ validate_color f.qrColor = false
      ∨ validate_color f.qrBgColor = false ∨ writeOk = false) →
    (save_settings_changes prev f probe writeOk).settings = prev
    ∧ (save_settings_changes prev f probe writeOk).written = none
    ∧ (save_settings_changes prev f probe writeOk).msg ≠ .saved

/-- Claim C8 as stated, for a successfully parsed settings file: the merge
is key-by-key — missing keys keep their defaults, unknown keys are ignored,
a failing `save_path` alone is discarded while the remaining persisted
values still apply. -/
def c8ClaimStatement : Prop :=
  ∀ (defaultSavePath : List Nat) (loaded : Dict) (probe : List Nat → Bool),
    (∀ k, dictGet loaded k = none →
      dictGet (load_settings (setup_app_settings defaultSavePath)
          (some (some loaded)) probe) k =
        dictGet (setup_app_settings defaultSavePath) k)
    ∧ (∀ k v, k ≠ savePathKey → dictGet (setup_app_settings defaultSavePath) k ≠ none →
        dictGet loaded k = some v →
        dictGet (load_settings (setup_app_settings defaultSavePath)
          (some (some loaded)) probe) k = some v)
    ∧ (∀ k, dictGet (setup_app_settings defaultSavePath) k = none →
        dictGet (load_settings (setup_app_settings defaultSavePath)
          (some (some loaded)) probe) k = none)

/-- Claim C9 as stated: `validate_color` accepts exactly the strings of
shape `#` + 3-or-6 hex digits. -/
def c9ClaimStatement : Prop :=
  ∀ s : List Nat, validate_color s = hexClaimShape s

/-- Claim C10 as stated: invoked outside the validated-settings path, the
image creation fails whenever either configured color fails the
`SettingsStore` hex pattern, whatever the external parser's non-hex
branches accept. -/
def c10ClaimStatement : Prop :=
  ∀ (extra : List Nat → Bool) (fg bg data : List Nat),
    (validate_color fg = false ∨ validate_color bg = false) →
    create_qr_code_image (mkPilParse extra)
      [(qrColorKey, .s fg), (qrBgColorKey, .s bg)] data = none

end QR

namespace QR

/-! ## Lemmas about the base64 alphabet and codec -/

theorem b64DecCode_b64CharCode : ∀ n : Nat, n < 64 → b64DecCode (b64CharCode n) = some n := by
  decide

theorem b64CharCode_ne_58 (n : Nat) : b64CharCode n ≠ 58 := by
  unfold b64CharCode; split_ifs <;> omega

theorem b64CharCode_ne_61 (n : Nat) : b64CharCode n ≠ 61 := by
  unfold b64CharCode; split_ifs <;> omega

/-- The envelope separator `:` (58) is not in the base64 alphabet, so it
never occurs in a base64-encoded field. -/
theorem not_mem_58_b64Encode (bs : List Nat) : 58 ∉ b64Encode bs := by
  induction bs using b64Encode.induct with
  | case1 => simp [b64Encode]
  | case2 a =>
    intro h
    simp only [b64Encode, List.mem_cons, List.not_mem_nil, or_false] at h
    rcases h with h | h | h | h <;> first | exact b64CharCode_ne_58 _ h.symm | omega
  | case3 a b =>
    intro h
    simp only [b64Encode, List.mem_cons, List.not_mem_nil, or_false] at h
    rcases h with h | h | h | h <;> first | exact b64CharCode_ne_58 _ h.symm | omega
  | case4 a b c rest ih =>
    intro h
    simp only [b64Encode, List.mem_cons] at h
    rcases h with h | h | h | h | h <;>
      first | exact b64CharCode_ne_58 _ h.symm | exact ih h

/-- Base64 decoding inverts base64 encoding on byte strings. -/
theorem b64Decode_b64Encode (bs : List Nat) (h : ∀ b ∈ bs, b < 256) :
    b64Decode (b64Encode bs) = some bs := by
  induction bs using b64Encode.induct with
  | case1 => rfl
  | case2 a =>
    have ha : a < 256 := h a (by simp)
    simp [b64Encode, b64Decode,
      b64DecCode_b64CharCode (a / 4) (by omega),
      b64DecCode_b64CharCode (a % 4 * 16) (by omega)]
    omega
  | case3 a b =>
    have ha : a < 256 := h a (by simp)
    have hb : b < 256 := h b (by simp)
    simp [b64Encode, b64Decode,
      b64DecCode_b64CharCode (a / 4) (by omega),
      b64DecCode_b64CharCode (a % 4 * 16 + b / 16) (by omega),
      b64DecCode_b64CharCode (b % 16 * 4) (by omega),
      b64CharCode_ne_61]
    omega
  | case4 a b c rest ih =>
    have ha : a < 256 := h a (by simp)
    have hb : b < 256 := h b (by simp)
    have hc : c < 256 := h c (by simp)
    have hrest : ∀ x ∈ rest, x < 256 := fun x hx => h x (by simp [hx])
    simp [b64Encode, b64Decode,
      b64DecCode_b64CharCode (a / 4) (by omega),
      b64DecCode_b64CharCode (a % 4 * 16 + b / 16) (by omega),
      b64DecCode_b64CharCode (b % 16 * 4 + c / 64) (by omega),
      b64DecCode_b64CharCode (c % 64) (by omega),
      b64CharCode_ne_61, ih hrest]
    omega

/-! ## Lemmas about splitting on the separator -/

theorem splitOnSep_of_not_mem (sep : Nat) (a : List Nat) (h : sep ∉ a) :
    splitOnSep sep a = [a] := by
  induction a with
  | nil => rfl
  | cons c t ih =>
    simp only [List.mem_cons, not_or] at h
    obtain ⟨hsc, hst⟩ := h
    simp [splitOnSep, ih hst, if_neg (Ne.symm hsc)]

theorem splitOnSep_append (sep : Nat) (a b : List Nat) (h : sep ∉ a) :
    splitOnSep sep (a ++ sep :: b) = a :: splitOnSep sep b := by
  induction a with
  | nil => simp [splitOnSep]
  | cons c t ih =>
    simp only [List.mem_cons, not_or] at h
    obtain ⟨hsc, hst⟩ := h
    simp [splitOnSep, ih hst, if_neg (Ne.symm hsc)]

/-- C2: for every plaintext and key (and any block cipher and IV draw), the
envelope returned by `encrypt_data` is exactly the base64 encoding of the IV,
a single `:` separator (code point 58, not in the base64 alphabet), and the
base64 encoding of the CBC ciphertext: splitting on `:` recovers exactly the
two fields, and `:` occurs exactly once in the envelope. -/
theorem c2_envelope_format (E : List Nat → List Nat → List Nat) (key iv data : List Nat) :
    splitOnSep 58 (encrypt_data E key iv data) =
      [b64Encode iv, b64Encode (cbcEncrypt (E key) iv (pkcs7Pad (utf8Encode data)))]
    ∧ (encrypt_data E key iv data).count 58 = 1 := by
  constructor
  · unfold encrypt_data
    rw [splitOnSep_append _ _ _ (not_mem_58_b64Encode iv),
        splitOnSep_of_not_mem _ _ (not_mem_58_b64Encode _)]
  · unfold encrypt_data
    have h1 : (b64Encode iv).count 58 = 0 :=
      List.count_eq_zero.mpr (not_mem_58_b64Encode iv)
    have h2 : (b64Encode (cbcEncrypt (E key) iv (pkcs7Pad (utf8Encode data)))).count 58 = 0 :=
      List.count_eq_zero.mpr (not_mem_58_b64Encode _)
    simp [List.count_append, List.count_cons, h1, h2]

/-! ## UTF-8 lemmas -/

theorem utf8Step_nil_none : utf8Step [] = none := rfl

theorem utf8Decode_nil : utf8Decode [] = some [] := by
  rw [utf8Decode]
  simp

theorem utf8Decode_step_some (l : List Nat) (c : Nat) (rest : List Nat)
    (h : utf8Step l = some (c, rest)) :
    utf8Decode l = (utf8Decode rest).map (c :: ·) := by
  have hl : l ≠ [] := by
    intro e; subst e; rw [utf8Step_nil_none] at h; exact Option.noConfusion h
  conv_lhs => rw [utf8Decode]
  rw [dif_neg hl]
  split
  · rename_i heq
    rw [h] at heq
    exact Option.noConfusion heq
  · rename_i c2 rest2 heq
    rw [h] at heq
    simp only [Option.some.injEq, Prod.mk.injEq] at heq
    obtain ⟨rfl, rfl⟩ := heq
    rfl

theorem utf8Step_utf8EncodeChar (c : Nat) (rest : List Nat) (h : c < 1114112) :
    utf8Step (utf8EncodeChar c ++ rest) = some (c, rest) := by
  by_cases h1 : c < 128
  · rw [utf8EncodeChar, if_pos h1]
    simp only [List.cons_append, List.nil_append, utf8Step]
    rw [if_pos h1]
  · by_cases h2 : c < 2048
    · rw [utf8EncodeChar, if_neg h1, if_pos h2]
      simp only [List.cons_append, List.nil_append, utf8Step]
      rw [if_neg (by omega), if_pos (by omega),
        if_pos ⟨by omega, by simp [utf8Cont]; omega⟩]
      have e : (192 + c / 64 - 192) * 64 + (128 + c % 64 - 128) = c := by omega
      rw [e]
    · by_cases h3 : c < 65536
      · rw [utf8EncodeChar, if_neg h1, if_neg h2, if_pos h3]
        simp only [List.cons_append, List.nil_append, utf8Step]
        rw [if_neg (by omega), if_neg (by omega), if_pos (by omega),
          if_pos ⟨by simp [utf8Cont]; omega, by simp [utf8Cont]; omega⟩]
        have e : (224 + c / 4096 - 224) * 4096 + (128 + c / 64 % 64 - 128) * 64 +
            (128 + c % 64 - 128) = c := by omega
        rw [e]
      · rw [utf8EncodeChar, if_neg h1, if_neg h2, if_neg h3]
        simp only [List.cons_append, List.nil_append, utf8Step]
        rw [if_neg (by omega), if_neg (by omega), if_neg (by omega),
          if_pos ⟨by omega, by simp [utf8Cont]; omega, by simp [utf8Cont]; omega,
            by simp [utf8Cont]; omega⟩]
        have e : (240 + c / 262144 - 240) * 262144 + (128 + c / 4096 % 64 - 128) * 4096 +
            (128 + c / 64 % 64 - 128) * 64 + (128 + c % 64 - 128) = c := by omega
        rw [e]

theorem utf8Decode_utf8EncodeChar (c : Nat) (rest : List Nat) (h : c < 1114112) :
    utf8Decode (utf8EncodeChar c ++ rest) = (utf8Decode rest).map (c :: ·) :=
  utf8Decode_step_some _ _ _ (utf8Step_utf8EncodeChar c rest h)

theorem utf8Decode_utf8Encode (data : List Nat) (h : ∀ c ∈ data, c < 1114112) :
    utf8Decode (utf8Encode data) = some data := by
  induction data with
  | nil => exact utf8Decode_nil
  | cons c cs ih =>
    have hc : c < 1114112 := h c (by simp)
    have hcs : ∀ x ∈ cs, x < 1114112 := fun x hx => h x (by simp [hx])
    simp [utf8Encode, utf8Decode_utf8EncodeChar c _ hc, ih hcs]

theorem utf8EncodeChar_bytes (c : Nat) (h : c < 1114112) :
    ∀ y ∈ utf8EncodeChar c, y < 256 := by
  intro y hy
  unfold utf8EncodeChar at hy
  split_ifs at hy with h1 h2 h3 <;>
    simp only [List.mem_cons, List.not_mem_nil, or_false] at hy <;> omega

theorem utf8Encode_bytes (data : List Nat) (h : ∀ c ∈ data, c < 1114112) :
    ∀ y ∈ utf8Encode data, y < 256 := by
  induction data with
  | nil => simp [utf8Encode]
  | cons c cs ih =>
    intro y hy
    simp only [utf8Encode, List.mem_append] at hy
    rcases hy with hy | hy
    · exact utf8EncodeChar_bytes c (h c (by simp)) y hy
    · exact ih (fun x hx => h x (by simp [hx])) y hy

/-! ## PKCS#7 lemmas -/

theorem pkcs7Unpad_pkcs7Pad (bs : List Nat) : pkcs7Unpad (pkcs7Pad bs) = some bs := by
  have hm : bs.length % 16 < 16 := Nat.mod_lt _ (by omega)
  set k := 16 - bs.length % 16 with hk
  have hk1 : 1 ≤ k := by omega
  have hk16 : k ≤ 16 := by omega
  have hlast : (List.replicate k k).getLast? = some k := by
    have hkk : k = (k - 1) + 1 := by omega
    rw [hkk, List.replicate_succ', List.getLast?_concat]
  have hlen : (bs ++ List.replicate k k).length = bs.length + k := by simp
  unfold pkcs7Pad pkcs7Unpad
  rw [← hk, List.getLast?_append, hlast]
  simp only [Option.or_some]
  rw [hlen]
  have hdrop : (bs ++ List.replicate k k).drop (bs.length + k - k) = List.replicate k k := by
    have : bs.length + k - k = bs.length := by omega
    rw [this, List.drop_left]
  have htake : (bs ++ List.replicate k k).take (bs.length + k - k) = bs := by
    have : bs.length + k - k = bs.length := by omega
    rw [this, List.take_left]
  rw [if_pos]
  · rw [htake]
  · refine ⟨hk1, hk16, by omega, ?_⟩
    rw [hdrop]
    simp [List.all_eq_true, List.mem_replicate]

theorem pkcs7Pad_length_mod (bs : List Nat) : (pkcs7Pad bs).length % 16 = 0 := by
  have hm : bs.length % 16 < 16 := Nat.mod_lt _ (by omega)
  simp [pkcs7Pad]
  omega

theorem pkcs7Pad_bytes (bs : List Nat) (h : ∀ y ∈ bs, y < 256) :
    ∀ y ∈ pkcs7Pad bs, y < 256 := by
  intro y hy
  simp only [pkcs7Pad, List.mem_append, List.mem_replicate] at hy
  rcases hy with hy | ⟨-, rfl⟩
  · exact h y hy
  · omega

/-! ## Lemmas about 16-byte blocks -/

theorem chunks_nil : chunks [] = [] := by
  unfold chunks
  simp

theorem chunks_cons (bs : List Nat) (h : bs ≠ []) :
    chunks bs = bs.take 16 :: chunks (bs.drop 16) := by
  conv_lhs => rw [chunks]
  simp [h]

theorem chunks_append (a b : List Nat) (h : a.length = 16) :
    chunks (a ++ b) = a :: chunks b := by
  have hne : a ++ b ≠ [] := by
    cases a with
    | nil => simp at h
    | cons x xs => simp
  rw [chunks_cons _ hne]
  have ht : (a ++ b).take 16 = a := by rw [← h, List.take_left]
  have hd : (a ++ b).drop 16 = b := by rw [← h, List.drop_left]
  rw [ht, hd]

theorem flatten_chunks (bs : List Nat) : (chunks bs).flatten = bs := by
  induction bs using chunks.induct with
  | case1 => simp [chunks_nil]
  | case2 bs hbs ih =>
    rw [chunks_cons _ hbs]
    simp only [List.flatten_cons, ih]
    exact List.take_append_drop 16 bs

theorem chunks_blocks_length :
    ∀ bs : List Nat, bs.length % 16 = 0 → ∀ blk ∈ chunks bs, blk.length = 16 := by
  intro bs
  induction bs using chunks.induct with
  | case1 => simp [chunks_nil]
  | case2 bs hbs ih =>
    intro hmod blk hblk
    have hpos : 0 < bs.length := List.length_pos.mpr hbs
    have h16 : 16 ≤ bs.length := by omega
    rw [chunks_cons _ hbs] at hblk
    rcases List.mem_cons.mp hblk with rfl | hblk
    · simp [List.length_take]; omega
    · exact ih (by simp [List.length_drop]; omega) blk hblk

theorem chunks_flatten_blocks (bls : List (List Nat)) (h : ∀ b ∈ bls, b.length = 16) :
    chunks bls.flatten = bls := by
  induction bls with
  | nil => simp [chunks_nil]
  | cons b rest ih =>
    simp only [List.flatten_cons]
    rw [chunks_append _ _ (h b (by simp))]
    rw [ih (fun x hx => h x (by simp [hx]))]

/-! ## Bytewise-xor lemmas -/

theorem length_xorBytes (a b : List Nat) :
    (xorBytes a b).length = min a.length b.length := by
  simp [xorBytes]

theorem xorBytes_xorBytes (a : List Nat) :
    ∀ b : List Nat, a.length = b.length → xorBytes (xorBytes a b) b = a := by
  induction a with
  | nil => intro b _; rfl
  | cons x xs ih =>
    intro b hb
    cases b with
    | nil => simp at hb
    | cons y ys =>
      simp only [xorBytes, List.zipWith_cons_cons]
      have hxy : Nat.xor (Nat.xor x y) y = x := Nat.xor_cancel_right y x
      rw [hxy]
      have := ih ys (by simpa using hb)
      simp only [xorBytes] at this
      rw [this]

theorem xorBytes_bytes (a : List Nat) :
    ∀ b : List Nat, (∀ y ∈ a, y < 256) → (∀ y ∈ b, y < 256) →
      ∀ y ∈ xorBytes a b, y < 256 := by
  induction a with
  | nil => intro b _ _ y hy; simp [xorBytes] at hy
  | cons x xs ih =>
    intro b ha hb y hy
    cases b with
    | nil => simp [xorBytes] at hy
    | cons z zs =>
      simp only [xorBytes, List.zipWith_cons_cons, List.mem_cons] at hy
      rcases hy with rfl | hy
      · have hx : x < 2 ^ 8 := ha x (by simp)
        have hz : z < 2 ^ 8 := hb z (by simp)
        exact Nat.xor_lt_two_pow hx hz
      · exact ih zs (fun u hu => ha u (by simp [hu])) (fun u hu => hb u (by simp [hu])) y hy

/-! ## CBC lemmas -/

theorem cbcEncBlocks_blocks (E1 : List Nat → List Nat)
    (hElen : ∀ b, b.length = 16 → (E1 b).length = 16)
    (hEbytes : ∀ b, b.length = 16 → (∀ y ∈ b, y < 256) → ∀ y ∈ E1 b, y < 256) :
    ∀ (blks : List (List Nat)) (prev : List Nat),
      prev.length = 16 → (∀ y ∈ prev, y < 256) →
      (∀ b ∈ blks, b.length = 16) → (∀ b ∈ blks, ∀ y ∈ b, y < 256) →
      ∀ cb ∈ cbcEncBlocks E1 prev blks, cb.length = 16 ∧ ∀ y ∈ cb, y < 256 := by
  intro blks
  induction blks with
  | nil => intro prev _ _ _ _ cb hcb; simp [cbcEncBlocks] at hcb
  | cons blk rest ih =>
    intro prev hp hpb hbl hbb cb hcb
    have hblk : blk.length = 16 := hbl blk (by simp)
    have hblkb : ∀ y ∈ blk, y < 256 := hbb blk (by simp)
    have hxlen : (xorBytes blk prev).length = 16 := by
      rw [length_xorBytes, hblk, hp]; exact Nat.min_self 16
    have hxb : ∀ y ∈ xorBytes blk prev, y < 256 := xorBytes_bytes blk prev hblkb hpb
    have hclen : (E1 (xorBytes blk prev)).length = 16 := hElen _ hxlen
    have hcb2 : ∀ y ∈ E1 (xorBytes blk prev), y < 256 := hEbytes _ hxlen hxb
    simp only [cbcEncBlocks, List.mem_cons] at hcb
    rcases hcb with rfl | hcb
    · exact ⟨hclen, hcb2⟩
    · exact ih (E1 (xorBytes blk prev)) hclen hcb2
        (fun b hb => hbl b (by simp [hb])) (fun b hb => hbb b (by simp [hb])) cb hcb

theorem cbcDecBlocks_cbcEncBlocks (E1 D1 : List Nat → List Nat)
    (hDE : ∀ b, b.length = 16 → D1 (E1 b) = b)
    (hElen : ∀ b, b.length = 16 → (E1 b).length = 16) :
    ∀ (blks : List (List Nat)) (prev : List Nat),
      prev.length = 16 → (∀ b ∈ blks, b.length = 16) →
      cbcDecBlocks D1 prev (cbcEncBlocks E1 prev blks) = blks := by
  intro blks
  induction blks with
  | nil => intro prev _ _; rfl
  | cons blk rest ih =>
    intro prev hp hbl
    have hblk : blk.length = 16 := hbl blk (by simp)
    have hxlen : (xorBytes blk prev).length = 16 := by
      rw [length_xorBytes, hblk, hp]; exact Nat.min_self 16
    simp only [cbcEncBlocks, cbcDecBlocks]
    rw [hDE _ hxlen, xorBytes_xorBytes blk prev (by omega)]
    rw [ih (E1 (xorBytes blk prev)) (hElen _ hxlen) (fun b hb => hbl b (by simp [hb]))]

/-- C1: for every plaintext string and every 32-byte key, encryption (UTF-8
encode, PKCS#7 pad to 16 bytes, CBC-encrypt under a fresh IV, base64 the IV
and ciphertext into the `iv:ct` envelope) followed by the inverse decrypt
operation recovers the original plaintext exactly. The AES-256 block
permutation is abstract: `E`/`D` are any key-indexed block functions such
that `D key` inverts `E key` on 16-byte blocks and `E key` preserves block
length and byte range; the plaintext is any list of Unicode scalar values a
Python `str.encode('utf-8')` accepts. -/
theorem c1_encrypt_roundtrip (E D : List Nat → List Nat → List Nat) (key iv data : List Nat)
    (hDE : ∀ b, b.length = 16 → D key (E key b) = b)
    (hElen : ∀ b, b.length = 16 → (E key b).length = 16)
    (hEbytes : ∀ b, b.length = 16 → (∀ y ∈ b, y < 256) → ∀ y ∈ E key b, y < 256)
    (hkey : key.length = 32)
    (hiv : iv.length = 16) (hivb : ∀ y ∈ iv, y < 256)
    (hdata : ∀ c ∈ data, c < 1114112 ∧ (c < 55296 ∨ 57344 ≤ c)) :
    decrypt_data D key (encrypt_data E key iv data) = some data := by
  have hscal : ∀ c ∈ data, c < 1114112 := fun c hc => (hdata c hc).1
  have hptb : ∀ y ∈ pkcs7Pad (utf8Encode data), y < 256 :=
    pkcs7Pad_bytes _ (utf8Encode_bytes _ hscal)
  have hptm : (pkcs7Pad (utf8Encode data)).length % 16 = 0 := pkcs7Pad_length_mod _
  have hblkslen : ∀ b ∈ chunks (pkcs7Pad (utf8Encode data)), b.length = 16 :=
    chunks_blocks_length _ hptm
  have hblksb : ∀ b ∈ chunks (pkcs7Pad (utf8Encode data)), ∀ y ∈ b, y < 256 := by
    intro b hb y hy
    refine hptb y ?_
    rw [← flatten_chunks (pkcs7Pad (utf8Encode data))]
    exact List.mem_flatten.mpr ⟨b, hb, hy⟩
  have hctprops := cbcEncBlocks_blocks (E key) hElen hEbytes
    (chunks (pkcs7Pad (utf8Encode data))) iv hiv hivb hblkslen hblksb
  have hctlen : ∀ cb ∈ cbcEncBlocks (E key) iv (chunks (pkcs7Pad (utf8Encode data))),
      cb.length = 16 := fun cb h => (hctprops cb h).1
  have hctb : ∀ y ∈ cbcEncrypt (E key) iv (pkcs7Pad (utf8Encode data)), y < 256 := by
    intro y hy
    unfold cbcEncrypt at hy
    obtain ⟨cb, hcb, hycb⟩ := List.mem_flatten.mp hy
    exact (hctprops cb hcb).2 y hycb
  have hdec : cbcDecrypt (D key) iv (cbcEncrypt (E key) iv (pkcs7Pad (utf8Encode data))) =
      pkcs7Pad (utf8Encode data) := by
    unfold cbcDecrypt cbcEncrypt
    rw [chunks_flatten_blocks _ hctlen]
    rw [cbcDecBlocks_cbcEncBlocks (E key) (D key) hDE hElen _ iv hiv hblkslen]
    exact flatten_chunks _
  unfold decrypt_data encrypt_data
  rw [splitOnSep_append _ _ _ (not_mem_58_b64Encode iv),
      splitOnSep_of_not_mem _ _ (not_mem_58_b64Encode _)]
  simp only [b64Decode_b64Encode iv hivb, b64Decode_b64Encode _ hctb, hdec,
    pkcs7Unpad_pkcs7Pad]
  exact utf8Decode_utf8Encode data hscal

/-- Witness for C1 at a concrete input: the identity block function, the
all-zero 32-byte key and 16-byte IV, and the plaintext "hi". -/
theorem c1_encrypt_roundtrip_witness :
    decrypt_data (fun _ b => b) (List.replicate 32 0)
      (encrypt_data (fun _ b => b) (List.replicate 32 0) (List.replicate 16 0) [104, 105]) =
      some [104, 105] :=
  c1_encrypt_roundtrip (fun _ b => b) (fun _ b => b) (List.replicate 32 0)
    (List.replicate 16 0) [104, 105]
    (fun _ _ => rfl) (fun _ h => h) (fun _ _ hb => hb)
    (by simp) (by simp) (by intro y hy; simp at hy; omega)
    (by intro c hc; simp at hc; omega)

/-! ## Color-pattern lemmas (claim C9) -/

theorem validate_color_not35 (c : Nat) (rest : List Nat) (h : c ≠ 35) :
    validate_color (c :: rest) = false := by
  unfold validate_color
  split
  · rename_i heq
    simp only [List.cons.injEq] at heq
    exact absurd heq.1 h
  · rfl

theorem hexClaimShape_not35 (c : Nat) (rest : List Nat) (h : c ≠ 35) :
    hexClaimShape (c :: rest) = false := by
  unfold hexClaimShape
  split
  · rename_i heq
    simp only [List.cons.injEq] at heq
    exact absurd heq.1 h
  · rfl

theorem stripLF_cons_cons (c r2 : Nat) (rest2 : List Nat) :
    stripOneTrailingLF (c :: r2 :: rest2) = c :: stripOneTrailingLF (r2 :: rest2) := by
  unfold stripOneTrailingLF
  rw [List.getLast?_cons_cons]
  split_ifs <;> rfl

/-- C9 (amended): `validate_color` accepts exactly the strings that, after
removing at most one trailing newline (which Python's `$` tolerates), have
the shape `#` followed by exactly 3 or 6 hex digits. -/
theorem c9_color_regex (s : List Nat) :
    validate_color s = hexClaimShape (stripOneTrailingLF s) := by
  cases s with
  | nil => rfl
  | cons c rest =>
    by_cases hc : c = 35
    · subst hc
      cases rest with
      | nil => rfl
      | cons r2 rest2 =>
        rw [stripLF_cons_cons]
        simp only [validate_color, hexClaimShape]
    · rw [validate_color_not35 _ _ hc]
      cases rest with
      | nil =>
        by_cases h10 : c = 10
        · subst h10; rfl
        · unfold stripOneTrailingLF
          rw [if_neg (by simp [h10])]
          exact (hexClaimShape_not35 _ _ hc).symm
      | cons r2 rest2 =>
        rw [stripLF_cons_cons]
        exact (hexClaimShape_not35 _ _ hc).symm

/-- C9 counterexample: the code accepts `"#abc\n"` (Python's `$` matches
before the trailing newline), while the claim as stated demands rejecting
any string with a character outside the hex alphabet. -/
theorem c9_counterexample : ¬ c9ClaimStatement := by
  intro h
  have hx := h [35, 97, 98, 99, 10]
  revert hx
  decide

/-! ## Input-validation lemmas (claim C3) -/

theorem pyStrip_nil : pyStrip [] = [] := rfl

theorem pyMatchDigits_nil : pyMatchDigits [] = false := rfl

/-- C3 (amended): the three rules apply in order with short-circuiting, but
the employee-id rule is Python's `re.match(r'^\d+$', ·)`, which tolerates a
single trailing newline; and on any failure the generation handler returns
before any downstream stage runs. The id is restricted to ASCII, where the
model of `\d` is exact. -/
theorem c3_validation_rules (name employeeId department notes : List Nat)
    (hAscii : ∀ c ∈ employeeId, c < 128) :
    validate_inputs name employeeId department =
      (if (pyStrip name).length < 2 then some .invalidName
       else if !pyMatchDigits employeeId then some .invalidId
       else if (pyStrip department).length < 2 then some .invalidDepartment
       else none)
    ∧ (∀ e, validate_inputs name employeeId department = some e →
        generate_qr_code name employeeId department notes = (some e, none)) := by
  constructor
  · by_cases h1 : (pyStrip name).length < 2
    · have cL : (name.isEmpty || decide ((pyStrip name).length < 2)) = true := by simp [h1]
      unfold validate_inputs
      simp only [cL]
      simp [h1]
    · have hne : name.isEmpty = false := by
        cases name with
        | nil => simp [pyStrip_nil] at h1
        | cons x xs => rfl
      have cL : (name.isEmpty || decide ((pyStrip name).length < 2)) = false := by
        rw [hne]; simp [h1]
      by_cases h2 : pyMatchDigits employeeId = true
      · have hid_ne : employeeId.isEmpty = false := by
          cases employeeId with
          | nil => rw [pyMatchDigits_nil] at h2; exact absurd h2 (by simp)
          | cons x xs => rfl
        have cI : (employeeId.isEmpty || !pyMatchDigits employeeId) = false := by
          rw [hid_ne, h2]; rfl
        by_cases h3 : (pyStrip department).length < 2
        · have cD : (department.isEmpty || decide ((pyStrip department).length < 2)) = true := by
            simp [h3]
          unfold validate_inputs
          simp only [cL, cI, cD]
          simp [h1, h2, h3]
        · have hd_ne : department.isEmpty = false := by
            cases department with
            | nil => simp [pyStrip_nil] at h3
            | cons x xs => rfl
          have cD : (department.isEmpty || decide ((pyStrip department).length < 2)) = false := by
            rw [hd_ne]; simp [h3]
          unfold validate_inputs
          simp only [cL, cI, cD]
          simp [h1, h2, h3]
      · have h2f : pyMatchDigits employeeId = false := by
          revert h2; cases pyMatchDigits employeeId <;> simp
        have cI : (employeeId.isEmpty || !pyMatchDigits employeeId) = true := by
          rw [h2f]; simp
        unfold validate_inputs
        simp only [cL, cI]
        simp [h1, h2f]
  · intro e he
    simp [generate_qr_code, he]

/-- C3 witness: the inputs name="ab", id="12\n", department="xy" validate
successfully (the trailing newline in the id is accepted). -/
theorem c3_validation_rules_witness :
    validate_inputs [97, 98] [49, 50, 10] [120, 121] = none := by
  have h := (c3_validation_rules [97, 98] [49, 50, 10] [120, 121] []
    (by decide : ∀ c ∈ ([49, 50, 10] : List Nat), c < 128)).1
  rw [h]
  decide

/-- C3 counterexample: for id="12\n" the code validates successfully, while
the claim as stated ("digits only, no trailing whitespace tolerated")
demands failure with InvalidId. -/
theorem c3_counterexample : ¬ c3ClaimStatement := by
  intro h
  have hx := (h [97, 98] [49, 50, 10] [120, 121] []).1
  revert hx
  decide

/-! ## Serialization lemmas (claim C4) -/

theorem stripLabel_append (lab v : List Nat) : stripLabel lab (lab ++ v) = some v := by
  unfold stripLabel
  rw [List.take_left, List.drop_left, if_pos rfl]

/-- C4 (amended): for every valid record whose fields contain no newline
character, serialization with empty notes yields exactly the three labeled
lines and parsing them back recovers the fields exactly; with non-empty
(newline-free) notes a fourth labeled notes line is appended. -/
theorem c4_serialize_roundtrip (name employeeId department notes : List Nat)
    (hv : validate_inputs name employeeId department = none)
    (hn : 10 ∉ name) (hi : 10 ∉ employeeId) (hd : 10 ∉ department) :
    (notes = [] →
      splitOnSep 10 (collect_employee_data name employeeId department notes) =
        [nameLabel ++ name, idLabel ++ employeeId, deptLabel ++ department]
      ∧ parseEmployee (collect_employee_data name employeeId department notes) =
          some (name, employeeId, department))
    ∧ (notes ≠ [] → 10 ∉ notes →
      splitOnSep 10 (collect_employee_data name employeeId department notes) =
        [nameLabel ++ name, idLabel ++ employeeId, deptLabel ++ department,
         notesLabel ++ notes]) := by
  have hl1 : (10 : Nat) ∉ nameLabel ++ name := by simp [nameLabel, hn]
  have hl2 : (10 : Nat) ∉ idLabel ++ employeeId := by simp [idLabel, hi]
  have hl3 : (10 : Nat) ∉ deptLabel ++ department := by simp [deptLabel, hd]
  constructor
  · intro hnotes
    subst hnotes
    have hc : collect_employee_data name employeeId department [] =
        (nameLabel ++ name) ++ 10 ::
          ((idLabel ++ employeeId) ++ 10 :: (deptLabel ++ department)) := by
      simp [collect_employee_data]
    have hsplit : splitOnSep 10 (collect_employee_data name employeeId department []) =
        [nameLabel ++ name, idLabel ++ employeeId, deptLabel ++ department] := by
      rw [hc, splitOnSep_append _ _ _ hl1, splitOnSep_append _ _ _ hl2,
        splitOnSep_of_not_mem _ _ hl3]
    refine ⟨hsplit, ?_⟩
    unfold parseEmployee
    rw [hsplit]
    simp [stripLabel_append]
  · intro hne hnN
    have hl4 : (10 : Nat) ∉ notesLabel ++ notes := by simp [notesLabel, hnN]
    have hc : collect_employee_data name employeeId department notes =
        (nameLabel ++ name) ++ 10 :: ((idLabel ++ employeeId) ++ 10 ::
          ((deptLabel ++ department) ++ 10 :: (notesLabel ++ notes))) := by
      simp [collect_employee_data, List.isEmpty_eq_false.mpr hne]
    rw [hc, splitOnSep_append _ _ _ hl1, splitOnSep_append _ _ _ hl2,
      splitOnSep_append _ _ _ hl3, splitOnSep_of_not_mem _ _ hl4]

/-- C4 witness: the spec's own scenario — name "محمد علي", id "12345",
department "تقنية المعلومات", empty notes — serializes to three labeled
lines that parse back to exactly the original fields. -/
theorem c4_serialize_roundtrip_witness :
    parseEmployee (collect_employee_data
        [1605, 1581, 1605, 1583, 32, 1593, 1604, 1610]
        [49, 50, 51, 52, 53]
        [1578, 1602, 1606, 1610, 1577, 32, 1575, 1604, 1605, 1593, 1604, 1608, 1605, 1575, 1578]
        []) =
      some ([1605, 1581, 1605, 1583, 32, 1593, 1604, 1610],
        [49, 50, 51, 52, 53],
        [1578, 1602, 1606, 1610, 1577, 32, 1575, 1604, 1605, 1593, 1604, 1608, 1605, 1575, 1578]) :=
  ((c4_serialize_roundtrip _ _ _ _ (by decide) (by decide) (by decide) (by decide)).1 rfl).2

/-- C4 counterexample: name="ab\ncd" passes validation (its trimmed length
is 5), but its serialization with empty notes splits into four lines, not
the three the claim as stated promises. -/
theorem c4_counterexample : ¬ c4ClaimStatement := by
  intro h
  have hx := h [97, 98, 10, 99, 100] [49, 50] [100, 101] (by decide)
  revert hx
  decide

/-! ## Key lifecycle (claims C5 and C6) -/

/-- C5 (amended): if the key file does not exist, fresh bytes `rand1` are
generated and their persistence attempted — they become the key only when
the write succeeds, a failed write falling back to a second fresh in-memory
draw `rand2`; if the file exists but reading fails, the handler falls back
to `rand2` without attempting any write. In every failure case the error is
only printed and a 32-byte in-memory key is available. -/
theorem c5_key_fallback (env : KeyEnv) (h1 : env.rand1.length = 32)
    (h2 : env.rand2.length = 32) :
    (env.fileExists = false →
      (load_or_generate_key env).persistAttempt = some env.rand1
      ∧ (load_or_generate_key env).key = (if env.writeOk then env.rand1 else env.rand2)
      ∧ (load_or_generate_key env).key.length = 32)
    ∧ (env.fileExists = true → env.readResult = none →
      (load_or_generate_key env).key = env.rand2
      ∧ (load_or_generate_key env).key.length = 32
      ∧ (load_or_generate_key env).persistAttempt = none
      ∧ (load_or_generate_key env).errorPrinted = true) := by
  obtain ⟨fe, rr, wo, r1, r2⟩ := env
  simp only at h1 h2
  constructor
  · intro hfe
    subst hfe
    cases wo <;> simp [load_or_generate_key, h1, h2]
  · intro hfe hrr
    subst hfe
    subst hrr
    simp [load_or_generate_key, h2]

/-- C5 witness: key file missing and the write failing still yields a
32-byte in-memory key. -/
theorem c5_key_fallback_witness :
    (load_or_generate_key
      ⟨false, none, false, List.replicate 32 0, List.replicate 32 1⟩).key.length = 32 :=
  ((c5_key_fallback ⟨false, none, false, List.replicate 32 0, List.replicate 32 1⟩
    (by decide) (by decide)).1 rfl).2.2

/-- C5 counterexample: when the key file exists but reading it raises, the
`except` handler only draws a new in-memory key — no persistence of the
fresh bytes is attempted, contrary to the claim as stated. -/
theorem c5_counterexample : ¬ c5ClaimStatement := by
  intro h
  have hx := h ⟨true, none, true, List.replicate 32 0, List.replicate 32 1⟩
    (by decide) (by decide) (Or.inr rfl)
  revert hx
  decide

/-- C6 (amended): when the key file exists and is readable, the key is the
file's entire content verbatim — whatever its length — so it is 32 bytes
exactly when the file holds exactly 32 bytes; in every generated-key
outcome the key is exactly 32 bytes. -/
theorem c6_key_length (env : KeyEnv) (h1 : env.rand1.length = 32)
    (h2 : env.rand2.length = 32) :
    (∀ bs, env.fileExists = true → env.readResult = some bs →
      (load_or_generate_key env).key = bs)
    ∧ ((env.fileExists = false ∨ env.readResult = none) →
      (load_or_generate_key env).key.length = 32) := by
  obtain ⟨fe, rr, wo, r1, r2⟩ := env
  simp only at h1 h2
  constructor
  · intro bs hfe hrr
    subst hfe
    subst hrr
    simp [load_or_generate_key]
  · intro hor
    cases fe with
    | false => cases wo <;> simp [load_or_generate_key, h1, h2]
    | true =>
      rcases hor with hf | hr
      · exact absurd hf (by simp)
      · subst hr
        simp [load_or_generate_key, h2]

/-- C6 witness: a readable 32-byte key file is taken verbatim as the key. -/
theorem c6_key_length_witness :
    (load_or_generate_key
      ⟨true, some (List.replicate 32 5), true, List.replicate 32 0,
        List.replicate 32 1⟩).key = List.replicate 32 5 :=
  (c6_key_length ⟨true, some (List.replicate 32 5), true, List.replicate 32 0,
    List.replicate 32 1⟩ (by decide) (by decide)).1 _ rfl rfl

/-- C6 counterexample: a key file holding only 3 bytes is read verbatim
(`f.read()` reads the whole file, not exactly 32 bytes), so the in-memory
key has length 3, not 32 as the claim states. -/
theorem c6_counterexample : ¬ c6ClaimStatement := by
  intro h
  have hx := h ⟨true, some [1, 2, 3], true, List.replicate 32 0, List.replicate 32 1⟩
    (by decide) (by decide)
  revert hx
  decide

/-! ## Settings save (claim C7) -/

/-- C7 (amended): the three validation gates run in order before any
mutation, each failure returning the prior settings untouched with nothing
written and the specific error named; but once validation passes, the
in-memory settings are updated *before* the file write, a write failure is
only printed, and success is reported either way — so on a write failure
the in-memory settings and the settings file disagree. -/
theorem c7_save_settings (prev : AppSettings) (f : SettingsForm)
    (probe : List Nat → Bool) (writeOk : Bool) :
    (probe f.savePath = false →
      save_settings_changes prev f probe writeOk = ⟨prev, none, .pathInvalid, false⟩)
    ∧ (probe f.savePath = true → validate_color f.qrColor = false →
      save_settings_changes prev f probe writeOk = ⟨prev, none, .colorInvalid, false⟩)
    ∧ (probe f.savePath = true → validate_color f.qrColor = true →
      validate_color f.qrBgColor = false →
      save_settings_changes prev f probe writeOk = ⟨prev, none, .bgColorInvalid, false⟩)
    ∧ (probe f.savePath = true → validate_color f.qrColor = true →
      validate_color f.qrBgColor = true →
      save_settings_changes prev f probe writeOk =
        ⟨formSettings f, if writeOk then some (formSettings f) else none, .saved,
          !writeOk⟩) := by
  refine ⟨?_, ?_, ?_, ?_⟩ <;> intros <;> simp_all [save_settings_changes]

/-- C7 counterexample: with a valid form and a failing write, the in-memory
settings are updated (they differ from the prior settings) and success is
reported — refuting the claim that nothing observable changes. -/
theorem c7_counterexample : ¬ c7ClaimStatement := by
  intro h
  have hx := h ⟨[47], false, [], [], blackHex, whiteHex, []⟩
    ⟨[47], true, [], [], blackHex, whiteHex, []⟩ (fun _ => true) false
    (Or.inr (Or.inr (Or.inr rfl)))
  revert hx
  decide

/-! ## Association-list (Python dict) lemmas, for claim C8 -/

theorem dictGet_eq_none_of_not_mem_keys (d : Dict) (k : List Nat)
    (h : k ∉ d.map Prod.fst) : dictGet d k = none := by
  induction d with
  | nil => rfl
  | cons p rest ih =>
    obtain ⟨a, v⟩ := p
    simp only [List.map_cons, List.mem_cons, not_or] at h
    have hne : a ≠ k := fun e => h.1 e.symm
    simp [dictGet, hne, ih h.2]

theorem dictGet_dictSet_self (d : Dict) (k : List Nat) (v : JVal) :
    dictGet (dictSet d k v) k = some v := by
  induction d with
  | nil => simp [dictSet, dictGet]
  | cons p rest ih =>
    obtain ⟨a, w⟩ := p
    by_cases hak : a = k
    · subst hak
      simp [dictSet, dictGet]
    · simp [dictSet, dictGet, hak, ih]

theorem dictGet_dictSet_other (d : Dict) (k : List Nat) (v : JVal) (k2 : List Nat)
    (h : k2 ≠ k) :
    dictGet (dictSet d k v) k2 = dictGet d k2 := by
  induction d with
  | nil => simp [dictSet, dictGet, Ne.symm h]
  | cons p rest ih =>
    obtain ⟨a, w⟩ := p
    by_cases hak : a = k
    · subst hak
      simp [dictSet, dictGet, Ne.symm h]
    · by_cases hak2 : a = k2
      · subst hak2
        simp [dictSet, dictGet, hak]
      · simp [dictSet, dictGet, hak, hak2, ih]

/-- Python `d.update(o)` (for `o` with pairwise-distinct keys, as parsed
JSON objects are) looks a key up in the overlay first and falls back to the
base dict. -/
theorem dictGet_dictUpdate (o : Dict) (hnd : (o.map Prod.fst).Nodup) :
    ∀ (d : Dict) (k : List Nat),
      dictGet (dictUpdate d o) k = (dictGet o k).or (dictGet d k) := by
  induction o with
  | nil => intro d k; simp [dictUpdate, dictGet]
  | cons p rest ih =>
    obtain ⟨a, v⟩ := p
    simp only [List.map_cons, List.nodup_cons] at hnd
    obtain ⟨ha, hrest⟩ := hnd
    intro d k
    have hstep : dictUpdate d ((a, v) :: rest) = dictUpdate (dictSet d a v) rest := rfl
    rw [hstep, ih hrest]
    by_cases hk : k = a
    · subst hk
      rw [dictGet_eq_none_of_not_mem_keys rest k ha, dictGet_dictSet_self]
      simp [dictGet]
    · rw [dictGet_dictSet_other _ _ _ _ hk]
      simp [dictGet, Ne.symm hk]

/-- C8 (amended): `load_settings` keeps the defaults when the file is
missing, unreadable, lacks a `save_path` key, or its `save_path` fails the
probe — in the failing-probe case the *whole* file is ignored, none of the
other persisted values apply; a non-string `save_path` simply fails the
probe (`validate_path` catches the `TypeError` and returns False), again
keeping every default; and only when `save_path` is present and passes the
probe is the whole loaded dict (unknown keys included) merged over the
defaults, each key taking the loaded value when present and the default
otherwise. -/
theorem c8_load_settings (defaultSavePath : List Nat) (loaded : Dict)
    (probe : List Nat → Bool) :
    (load_settings (setup_app_settings defaultSavePath) none probe =
        setup_app_settings defaultSavePath)
    ∧ (load_settings (setup_app_settings defaultSavePath) (some none) probe =
        setup_app_settings defaultSavePath)
    ∧ (dictGet loaded savePathKey = none →
        load_settings (setup_app_settings defaultSavePath) (some (some loaded)) probe =
          setup_app_settings defaultSavePath)
    ∧ (∀ p, dictGet loaded savePathKey = some (.s p) → probe p = false →
        load_settings (setup_app_settings defaultSavePath) (some (some loaded)) probe =
          setup_app_settings defaultSavePath)
    ∧ (∀ b, dictGet loaded savePathKey = some (.b b) →
        load_settings (setup_app_settings defaultSavePath) (some (some loaded)) probe =
          setup_app_settings defaultSavePath)
    ∧ (∀ p, dictGet loaded savePathKey = some (.s p) → probe p = true →
        (loaded.map Prod.fst).Nodup →
        ∀ k, dictGet (load_settings (setup_app_settings defaultSavePath)
            (some (some loaded)) probe) k =
          (dictGet loaded k).or (dictGet (setup_app_settings defaultSavePath) k)) := by
  refine ⟨rfl, rfl, ?_, ?_, ?_, ?_⟩
  · intro h
    simp [load_settings, h]
  · intro p hp hpr
    simp [load_settings, hp, hpr]
  · intro b hb
    simp [load_settings, hb]
  · intro p hp hpr hnd k
    have hload : load_settings (setup_app_settings defaultSavePath)
        (some (some loaded)) probe =
        dictUpdate (setup_app_settings defaultSavePath) loaded := by
      simp [load_settings, hp, hpr]
    rw [hload]
    exact dictGet_dictUpdate loaded hnd (setup_app_settings defaultSavePath) k

/-- C8 witness: a settings file with a probe-passing save path, an
`auto_save` override and an unknown key `x` merges all three over the
defaults — in particular the persisted `auto_save = true` takes effect. -/
theorem c8_load_settings_witness :
    dictGet (load_settings (setup_app_settings [47, 100])
        (some (some [(savePathKey, .s [47, 98]), (autoSaveKey, .b true), ([120], .b true)]))
        (fun _ => true)) autoSaveKey = some (.b true) := by
  have h := (c8_load_settings [47, 100]
    [(savePathKey, .s [47, 98]), (autoSaveKey, .b true), ([120], .b true)]
    (fun _ => true)).2.2.2.2.2 [47, 98] (by decide) rfl (by decide) autoSaveKey
  rw [h]
  decide

/-- C8 counterexample: a settings file whose `save_path` fails the probe
but which also carries `auto_save = true` is ignored wholesale — the
in-memory `auto_save` stays at its default `false`, while the claim as
stated says the remaining persisted values still apply. -/
theorem c8_counterexample : ¬ c8ClaimStatement := by
  intro h
  have hx := (h [47, 100] [(savePathKey, .s [47, 98]), (autoSaveKey, .b true)]
    (fun _ => false)).2.1 autoSaveKey (.b true) (by decide) (by decide) (by decide)
  revert hx
  decide

/-! ## Image-library color handling (claim C10) -/

theorem isLowerHexDigit_asciiLower (x : Nat) (h : isHexDigit x = true) :
    isLowerHexDigit (asciiLower x) = true := by
  simp only [isHexDigit, Bool.or_eq_true, decide_eq_true_eq] at h
  simp only [asciiLower, isLowerHexDigit, Bool.or_eq_true, decide_eq_true_eq]
  split_ifs <;> omega

/-- Every color of the strict `#hex3`/`#hex6` shape is accepted by the
external library's documented hexadecimal grammar after lowercasing. -/
theorem pilHexOk_of_hexClaimShape (s : List Nat) (h : hexClaimShape s = true) :
    pilHexOk (s.map asciiLower) = true := by
  cases s with
  | nil => simp [hexClaimShape] at h
  | cons c rest =>
    by_cases hc : c = 35
    · subst hc
      simp only [hexClaimShape, Bool.and_eq_true, Bool.or_eq_true, decide_eq_true_eq] at h
      obtain ⟨hlen, hall⟩ := h
      simp only [List.map_cons, show asciiLower 35 = 35 from rfl, pilHexOk,
        Bool.and_eq_true, Bool.or_eq_true, decide_eq_true_eq, List.length_map]
      refine ⟨by omega, ?_⟩
      simp only [List.all_eq_true] at hall ⊢
      intro y hy
      obtain ⟨x, hx, rfl⟩ := List.mem_map.mp hy
      exact isLowerHexDigit_asciiLower x (hall x hx)
    · rw [hexClaimShape_not35 _ _ hc] at h
      exact absurd h (by simp)

/-- C10 (amended): `create_qr_code_image` applies no hex-pattern validation
of its own — it fails exactly when the external library's color parser
rejects the fill or background string; every strict `#hex3`/`#hex6` color
always renders, and colors outside the SettingsStore pattern but inside the
library's grammar (such as 4-digit hex) render as well instead of failing. -/
theorem c10_encode_colors (extra : List Nat → Bool) (fg bg data : List Nat) :
    (create_qr_code_image (mkPilParse extra)
        [(qrColorKey, .s fg), (qrBgColorKey, .s bg)] data =
      if mkPilParse extra fg && mkPilParse extra bg then
        some ⟨data, fg, bg⟩ else none)
    ∧ (hexClaimShape fg = true → hexClaimShape bg = true →
      create_qr_code_image (mkPilParse extra)
          [(qrColorKey, .s fg), (qrBgColorKey, .s bg)] data =
        some ⟨data, fg, bg⟩) := by
  constructor
  · rfl
  · intro h1 h2
    show (if mkPilParse extra fg && mkPilParse extra bg then
      some (⟨data, fg, bg⟩ : QRImage) else none) = some ⟨data, fg, bg⟩
    have p1 : mkPilParse extra fg = true := by
      unfold mkPilParse
      rw [pilHexOk_of_hexClaimShape fg h1]
      rfl
    have p2 : mkPilParse extra bg = true := by
      unfold mkPilParse
      rw [pilHexOk_of_hexClaimShape bg h2]
      rfl
    rw [p1, p2]
    rfl

/-- C10 counterexample: the 4-digit hex color "#abcd" fails the
SettingsStore pattern yet is inside the library's hexadecimal grammar, so
image creation succeeds instead of failing — whatever the library's
non-hex branches accept. -/
theorem c10_counterexample : ¬ c10ClaimStatement := by
  intro h
  have hx := h (fun _ => false) [35, 97, 98, 99, 100] whiteHex [1, 2]
    (Or.inl (by decide))
  revert hx
  decide

end QR
